import Mathlib

set_option maxHeartbeats 1000000

/-!
Verification of the transaction-ledger core of the Budget Tracker application
(source file `src/bt.py`): schema enforcement (`ensure_schema`), the
transaction store, recurring-rule reconciliation, budget evaluation, the
description text filter, the cumulative balance series, and positional edit.

The pandas data model is embedded value-wise: a dataframe is a list of named
columns of cells, a cell is a missing marker (NaN/NaT/None), a string, an
exact rational number (modelling Python floats by exact arithmetic), or a
timestamp.  Library primitives used by the program (`pd.to_datetime`,
`pd.to_numeric`, `pd.concat`, column selection, `Series.str.contains`,
`sort_values`, `cumsum`, `groupby` sums) are modelled by the corresponding
total functions on this representation; where a library parser is involved
(date strings, numeric strings) the model fixes a concrete executable
fragment of its behaviour, documented at the definition.
-/

/-- A calendar timestamp: year, month (1..12) and a sub-month key `sub`
ordering instants inside the month (day/time collapsed into one rational).
The period label `"%B %Y"` used by the program corresponds to the
`(year, month)` pair. -/
structure Date where
  year : Int
  month : Nat
  sub : ℚ
deriving DecidableEq, Repr

/-- One cell of a pandas object column: missing marker (NaN/NaT/None),
string, number, or timestamp. -/
inductive Cell where
  | null : Cell
  | str : String → Cell
  | num : ℚ → Cell
  | date : Date → Cell
deriving DecidableEq, Repr

/-- A stored transaction row, i.e. one row of the five-column frame produced
by `ensure_schema`: `Date` is datetime-typed (`none` = NaT), `Amount` is
numeric (`none` = NaN), and the three object columns `Type`, `Category`,
`Description` hold arbitrary cells. -/
structure Txn where
  date : Option Date
  ty : Cell
  category : Cell
  description : Cell
  amount : Option ℚ
deriving DecidableEq, Repr

/-- `REQUIRED_COLS` from `src/bt.py` line 12. -/
def REQUIRED_COLS : List String := ["Date", "Type", "Category", "Description", "Amount"]

/-- `CATEGORY_OPTIONS` from `src/bt.py` line 13. -/
def CATEGORY_OPTIONS : List String := ["Food", "Transport", "Bills", "Entertainment", "Other"]

/-- A raw dataframe as handed to `ensure_schema`: a row count and a list of
named columns (in a well-formed frame all columns have length `nrows` and
the names are distinct). -/
structure RawFrame where
  nrows : Nat
  cols : List (String × List Cell)
deriving DecidableEq, Repr

/-- Well-formedness of a dataframe: distinct column names, every column of
length `nrows`. -/
def RawFrame.Wf (f : RawFrame) : Prop :=
  (f.cols.map Prod.fst).Nodup ∧ ∀ p ∈ f.cols, p.2.length = f.nrows

instance (f : RawFrame) : Decidable f.Wf := by
  unfold RawFrame.Wf
  infer_instance

/-- Value of a digit list read in base 10. -/
def digitsToNat (l : List Char) : Nat :=
  l.foldl (fun a c => a * 10 + (c.toNat - 48)) 0

/-- All characters are ASCII digits. -/
def allDigits (l : List Char) : Bool := l.all Char.isDigit

/-- A nonempty all-digit string, read as a natural number. -/
def natField (s : String) : Option Nat :=
  if s.length > 0 && allDigits s.data then some (digitsToNat s.data) else none

/-- Models the date parser behind `pd.to_datetime` (library code, not part of
this repository), restricted to ISO `YYYY-MM-DD` strings with an in-range
month and day; every other string is unparseable and coerces to NaT under
`errors="coerce"`. -/
def parseDate (s : String) : Option Date :=
  match (s.splitOn "-").map natField with
  | [some y, some m, some d] =>
      if 1 ≤ m && m ≤ 12 && 1 ≤ d && d ≤ 31 then some ⟨(y : Int), m, (d : ℚ)⟩ else none
  | _ => none

/-- Models the numeric parser behind `pd.to_numeric` (library code, not part
of this repository): optional minus sign, decimal digits with at most one
decimal point; every other string is unparseable and coerces to NaN under
`errors="coerce"`. -/
def parseNum (s : String) : Option ℚ :=
  let body := if s.startsWith "-" then s.drop 1 else s
  let mag : Option ℚ :=
    match body.splitOn "." with
    | [i] =>
        if i.length > 0 && allDigits i.data then some ((digitsToNat i.data : ℚ)) else none
    | [i, fr] =>
        if (i.length > 0 || fr.length > 0) && allDigits i.data && allDigits fr.data then
          some ((digitsToNat i.data : ℚ) + (digitsToNat fr.data : ℚ) / ((10 : ℚ) ^ fr.length))
        else none
    | _ => none
  mag.map (fun q => if s.startsWith "-" then -q else q)

/-- Models pandas' numeric-to-timestamp coercion (a number is read as an
offset from the epoch); the calendar fields are collapsed to the epoch month
with the numeric value as the sub-month ordering key, which is adequate for
the properties considered here (none inspects the calendar fields of a
numeric-origin timestamp). -/
def numDate (q : ℚ) : Date := ⟨1970, 1, q⟩

/-- Elementwise model of `pd.to_datetime(col, errors="coerce")`. -/
def toDatetimeCell : Cell → Cell
  | Cell.null => Cell.null
  | Cell.date d => Cell.date d
  | Cell.num q => Cell.date (numDate q)
  | Cell.str s =>
      match parseDate s with
      | some d => Cell.date d
      | none => Cell.null

/-- Elementwise model of `pd.to_numeric(col, errors="coerce")`: numbers pass
through, parseable numeric strings convert, everything else coerces to NaN. -/
def toNumericCell : Cell → Cell
  | Cell.null => Cell.null
  | Cell.num q => Cell.num q
  | Cell.date _ => Cell.null
  | Cell.str s =>
      match parseNum s with
      | some q => Cell.num q
      | none => Cell.null

/-- Whether the frame has a column of the given name (`col in df.columns`). -/
def hasCol (f : RawFrame) (c : String) : Bool := f.cols.any (fun p => p.1 == c)

/-- Column lookup by name (`df[c]`); absent name yields the empty column. -/
def getColD (cols : List (String × List Cell)) (c : String) : List Cell :=
  match cols.find? (fun p => p.1 == c) with
  | some p => p.2
  | none => []

/-- The per-column conversion applied by `ensure_schema` lines 31-32: the
`Date` column through `pd.to_datetime`, the `Amount` column through
`pd.to_numeric`, object columns untouched. -/
def coerceCol (c : String) (v : List Cell) : List Cell :=
  if c == "Date" then v.map toDatetimeCell
  else if c == "Amount" then v.map toNumericCell
  else v

/-- The empty five-column frame built at `src/bt.py` line 21 for a `None` or
non-dataframe input. -/
def emptyFrame : RawFrame :=
  { nrows := 0, cols := REQUIRED_COLS.map (fun c => (c, ([] : List Cell))) }

/-- The columns of the frame after the fill-in loop of `src/bt.py` lines
22-29: each required column not already present is created as an all-null
column of the frame's length (an empty typed Series assigned into a frame
aligns to all-NaN). -/
def filledCols (f : RawFrame) : List (String × List Cell) :=
  f.cols ++
    (REQUIRED_COLS.filter (fun c => !hasCol f c)).map
      (fun c => (c, List.replicate f.nrows Cell.null))

/-- `ensure_schema` (`src/bt.py` lines 19-33).  `none` models a `None` or
non-dataframe argument.  Missing required columns are created all-null, the
required columns are selected in fixed order, then `Date` and `Amount` are
coerced. -/
def ensure_schema (df : Option RawFrame) : RawFrame :=
  let f := df.getD emptyFrame
  { nrows := f.nrows,
    cols := REQUIRED_COLS.map (fun c => (c, coerceCol c (getColD (filledCols f) c))) }

theorem toDatetimeCell_idem (c : Cell) : toDatetimeCell (toDatetimeCell c) = toDatetimeCell c := by
  cases c with
  | null => rfl
  | date d => rfl
  | num q => rfl
  | str s =>
      simp only [toDatetimeCell]
      cases parseDate s <;> rfl

theorem toNumericCell_idem (c : Cell) : toNumericCell (toNumericCell c) = toNumericCell c := by
  cases c with
  | null => rfl
  | date d => rfl
  | num q => rfl
  | str s =>
      simp only [toNumericCell]
      cases parseNum s <;> rfl

/-- Output cells of the datetime coercion are timestamps or the null marker. -/
def isDateOrNull : Cell → Bool
  | Cell.null => true
  | Cell.date _ => true
  | _ => false

/-- Output cells of the numeric coercion are numbers or the null marker. -/
def isNumOrNull : Cell → Bool
  | Cell.null => true
  | Cell.num _ => true
  | _ => false

theorem isDateOrNull_toDatetimeCell (c : Cell) : isDateOrNull (toDatetimeCell c) = true := by
  cases c with
  | null => rfl
  | date d => rfl
  | num q => rfl
  | str s =>
      simp only [toDatetimeCell]
      cases parseDate s <;> rfl

theorem isNumOrNull_toNumericCell (c : Cell) : isNumOrNull (toNumericCell c) = true := by
  cases c with
  | null => rfl
  | date d => rfl
  | num q => rfl
  | str s =>
      simp only [toNumericCell]
      cases parseNum s <;> rfl

theorem coerceCol_length (c : String) (v : List Cell) : (coerceCol c v).length = v.length := by
  unfold coerceCol
  by_cases h1 : (c == "Date") = true <;> by_cases h2 : (c == "Amount") = true <;>
    simp [h1, h2]

theorem find?_name_map (l : List String) (v : String → List Cell) (c : String) (hc : c ∈ l) :
    (l.map (fun x => (x, v x))).find? (fun p => p.1 == c) = some (c, v c) := by
  induction l with
  | nil => cases hc
  | cons x xs ih =>
      simp only [List.map_cons, List.find?_cons]
      by_cases hx : (x == c) = true
      · have : x = c := by simpa using hx
        subst this
        simp
      · have hxc : x ≠ c := by simpa using hx
        have : c ∈ xs := by
          rcases List.mem_cons.mp hc with h | h
          · exact absurd h.symm hxc
          · exact h
        simpa [hx] using ih this

theorem getColD_filledCols_of_absent (f : RawFrame) (c : String)
    (hc : c ∈ REQUIRED_COLS) (hab : hasCol f c = false) :
    getColD (filledCols f) c = List.replicate f.nrows Cell.null := by
  unfold getColD filledCols
  rw [List.find?_append]
  have h1 : f.cols.find? (fun p => p.1 == c) = none := by
    rw [List.find?_eq_none]
    intro p hp
    intro hpc
    have h2 : hasCol f c = true := List.any_eq_true.mpr ⟨p, hp, hpc⟩
    rw [hab] at h2
    exact Bool.noConfusion h2
  have hcm : c ∈ REQUIRED_COLS.filter (fun x => !hasCol f x) :=
    List.mem_filter.mpr ⟨hc, by simp [hab]⟩
  rw [h1, find?_name_map _ _ _ hcm]
  rfl

theorem getColD_filledCols_of_present (f : RawFrame) (c : String) (p : String × List Cell)
    (hfind : f.cols.find? (fun q => q.1 == c) = some p) :
    getColD (filledCols f) c = p.2 := by
  unfold getColD filledCols
  rw [List.find?_append, hfind]
  rfl

theorem getColD_filledCols_length (f : RawFrame) (c : String)
    (hw : ∀ p ∈ f.cols, p.2.length = f.nrows) (hc : c ∈ REQUIRED_COLS) :
    (getColD (filledCols f) c).length = f.nrows := by
  cases hfind : f.cols.find? (fun q => q.1 == c) with
  | some p =>
      rw [getColD_filledCols_of_present f c p hfind]
      exact hw p (List.mem_of_find?_eq_some hfind)
  | none =>
      cases hab : hasCol f c with
      | false =>
          rw [getColD_filledCols_of_absent f c hc hab]
          exact List.length_replicate _ _
      | true =>
          exfalso
          rcases List.any_eq_true.mp hab with ⟨p, hp, hpc⟩
          have := List.find?_eq_none.mp hfind p hp
          exact this hpc

/-- The columns produced by `ensure_schema` carry exactly the required names
in fixed order. -/
theorem ensure_schema_names (T : Option RawFrame) :
    (ensure_schema T).cols.map Prod.fst = REQUIRED_COLS := rfl

theorem getColD_ensure_schema (f : RawFrame) (c : String) (hc : c ∈ REQUIRED_COLS) :
    getColD (ensure_schema (some f)).cols c = coerceCol c (getColD (filledCols f) c) := by
  have : (ensure_schema (some f)).cols =
      REQUIRED_COLS.map (fun c => (c, coerceCol c (getColD (filledCols f) c))) := rfl
  rw [this, getColD, find?_name_map _ _ _ hc]

theorem coerceCol_Date (v : List Cell) : coerceCol "Date" v = v.map toDatetimeCell := rfl

theorem coerceCol_Amount (v : List Cell) : coerceCol "Amount" v = v.map toNumericCell := rfl

/-- C2: schema enforcement is idempotent — for every input table `T`
(including the `None`/non-dataframe case), applying `ensure_schema` to the
output of `ensure_schema` yields that output unchanged. -/
theorem ensure_schema_idem (T : Option RawFrame) :
    ensure_schema (some (ensure_schema T)) = ensure_schema T := by
  have hD : toDatetimeCell ∘ toDatetimeCell = toDatetimeCell := funext toDatetimeCell_idem
  have hN : toNumericCell ∘ toNumericCell = toNumericCell := funext toNumericCell_idem
  simp [ensure_schema, REQUIRED_COLS, hasCol, getColD, coerceCol, filledCols,
    List.map_map, hD, hN]

/-- C10: schema enforcement is total on non-tabular input — applied to `None`
or any non-dataframe value (the `none` argument), `ensure_schema` returns the
empty table with exactly the five required columns rather than raising. -/
theorem ensure_schema_total_none :
    (ensure_schema none).nrows = 0 ∧
    (ensure_schema none).cols.map Prod.fst = REQUIRED_COLS ∧
    ∀ p ∈ (ensure_schema none).cols, p.2 = [] := by decide

/-- C3: for every well-formed tabular input, `ensure_schema` returns (it is a
total function — no exception escapes) a table with exactly the five
required columns in fixed order; every `Date` cell is a timestamp or the
null marker and every `Amount` cell a number or the null marker, with
unparseable date strings and unparseable amount strings becoming null rather
than an error; missing required columns are created as all-null columns;
extra columns are dropped (only required names remain); and every output
column keeps the input row count. -/
theorem ensure_schema_contract (f : RawFrame) (h : f.Wf) :
    ((ensure_schema (some f)).cols.map Prod.fst = REQUIRED_COLS)
    ∧ (∀ p ∈ (ensure_schema (some f)).cols, p.2.length = f.nrows)
    ∧ (∀ c ∈ getColD (ensure_schema (some f)).cols "Date", isDateOrNull c = true)
    ∧ (∀ c ∈ getColD (ensure_schema (some f)).cols "Amount", isNumOrNull c = true)
    ∧ (∀ i s, (getColD f.cols "Date").getD i Cell.null = Cell.str s → parseDate s = none →
        (getColD (ensure_schema (some f)).cols "Date").getD i Cell.null = Cell.null)
    ∧ (∀ i s, (getColD f.cols "Amount").getD i Cell.null = Cell.str s → parseNum s = none →
        (getColD (ensure_schema (some f)).cols "Amount").getD i Cell.null = Cell.null)
    ∧ (∀ c ∈ REQUIRED_COLS, hasCol f c = false →
        getColD (ensure_schema (some f)).cols c = List.replicate f.nrows Cell.null) := by
  obtain ⟨hnd, hlen⟩ := h
  refine ⟨ensure_schema_names _, ?_, ?_, ?_, ?_, ?_, ?_⟩
  · intro p hp
    have hcols : (ensure_schema (some f)).cols =
        REQUIRED_COLS.map (fun c => (c, coerceCol c (getColD (filledCols f) c))) := rfl
    rw [hcols] at hp
    rcases List.mem_map.mp hp with ⟨c, hc, rfl⟩
    simp only [coerceCol_length]
    exact getColD_filledCols_length f c hlen hc
  · intro c hcmem
    rw [getColD_ensure_schema f "Date" (by decide), coerceCol_Date] at hcmem
    rcases List.mem_map.mp hcmem with ⟨x, hx, rfl⟩
    exact isDateOrNull_toDatetimeCell x
  · intro c hcmem
    rw [getColD_ensure_schema f "Amount" (by decide), coerceCol_Amount] at hcmem
    rcases List.mem_map.mp hcmem with ⟨x, hx, rfl⟩
    exact isNumOrNull_toNumericCell x
  · intro i s hin hps
    cases hfind : f.cols.find? (fun q => q.1 == "Date") with
    | none =>
        rw [show getColD f.cols "Date" = [] by simp [getColD, hfind]] at hin
        rw [List.getD_nil] at hin
        exact Cell.noConfusion hin
    | some p =>
        have hcol : getColD f.cols "Date" = p.2 := by simp [getColD, hfind]
        rw [hcol, List.getD_eq_getElem?_getD] at hin
        rw [getColD_ensure_schema f "Date" (by decide),
            getColD_filledCols_of_present f _ p hfind, coerceCol_Date]
        cases hgi : p.2[i]? with
        | none =>
            rw [hgi] at hin
            exact absurd hin (by simp)
        | some c0 =>
            rw [hgi] at hin
            simp only [Option.getD_some] at hin
            subst hin
            rw [List.getD_eq_getElem?_getD, List.getElem?_map, hgi]
            simp [toDatetimeCell, hps]
  · intro i s hin hps
    cases hfind : f.cols.find? (fun q => q.1 == "Amount") with
    | none =>
        rw [show getColD f.cols "Amount" = [] by simp [getColD, hfind]] at hin
        rw [List.getD_nil] at hin
        exact Cell.noConfusion hin
    | some p =>
        have hcol : getColD f.cols "Amount" = p.2 := by simp [getColD, hfind]
        rw [hcol, List.getD_eq_getElem?_getD] at hin
        rw [getColD_ensure_schema f "Amount" (by decide),
            getColD_filledCols_of_present f _ p hfind, coerceCol_Amount]
        cases hgi : p.2[i]? with
        | none =>
            rw [hgi] at hin
            exact absurd hin (by simp)
        | some c0 =>
            rw [hgi] at hin
            simp only [Option.getD_some] at hin
            subst hin
            rw [List.getD_eq_getElem?_getD, List.getElem?_map, hgi]
            simp [toNumericCell, hps]
  · intro c hc hab
    have hc5 : c ∈ REQUIRED_COLS := hc
    rw [getColD_ensure_schema f c hc, getColD_filledCols_of_absent f c hc hab]
    simp only [REQUIRED_COLS, List.mem_cons, List.mem_singleton] at hc5
    rcases hc5 with rfl | rfl | rfl | rfl | rfl | h0
    · rw [coerceCol_Date]
      simp [toDatetimeCell]
    · rfl
    · rfl
    · rfl
    · rw [coerceCol_Amount]
      simp [toNumericCell]
    · cases h0

/-- A concrete well-formed input frame: a parseable and an unparseable date
string, an extra column, and no `Amount` column. -/
def sampleFrame : RawFrame :=
  { nrows := 2,
    cols := [("Date", [Cell.str "2025-01-05", Cell.str "junk"]),
             ("Extra", [Cell.num 1, Cell.num 2])] }

theorem ensure_schema_contract_witness :
    sampleFrame.Wf ∧
    (((ensure_schema (some sampleFrame)).cols.map Prod.fst = REQUIRED_COLS)
    ∧ (∀ p ∈ (ensure_schema (some sampleFrame)).cols, p.2.length = sampleFrame.nrows)
    ∧ (∀ c ∈ getColD (ensure_schema (some sampleFrame)).cols "Date", isDateOrNull c = true)
    ∧ (∀ c ∈ getColD (ensure_schema (some sampleFrame)).cols "Amount", isNumOrNull c = true)
    ∧ (∀ i s, (getColD sampleFrame.cols "Date").getD i Cell.null = Cell.str s →
        parseDate s = none →
        (getColD (ensure_schema (some sampleFrame)).cols "Date").getD i Cell.null = Cell.null)
    ∧ (∀ i s, (getColD sampleFrame.cols "Amount").getD i Cell.null = Cell.str s →
        parseNum s = none →
        (getColD (ensure_schema (some sampleFrame)).cols "Amount").getD i Cell.null = Cell.null)
    ∧ (∀ c ∈ REQUIRED_COLS, hasCol sampleFrame c = false →
        getColD (ensure_schema (some sampleFrame)).cols c =
          List.replicate sampleFrame.nrows Cell.null)) :=
  ⟨by decide, ensure_schema_contract sampleFrame (by decide)⟩

/-- The positional edit of `src/bt.py` lines 244-261: the row at the chosen
index gets its `Type`, `Category`, `Amount`, `Description` overwritten from
the form and its `Date` restamped with the current time.  The store's index
is positional (every append uses `ignore_index=True`), so label `i` is
position `i`; the UI clamps the index to `0 .. len-1`, so the out-of-range
case (which `.at` would turn into an append) is unreachable and modelled as
a no-op. -/
def update_at (l : List Txn) (i : Nat) (ty cat desc : String) (amt : ℚ) (now : Date) : List Txn :=
  match l, i with
  | [], _ => []
  | t :: ts, 0 =>
      { t with ty := Cell.str ty, category := Cell.str cat, amount := some amt,
               description := Cell.str desc, date := some now } :: ts
  | t :: ts, Nat.succ j => t :: update_at ts j ty cat desc amt now

/-- C9: for every in-range position, the positional edit replaces exactly the
row at that position — its kind, category, amount and description come from
the form and its date is the fresh timestamp — while the row count and every
other row are unchanged. -/
theorem update_at_frame (l : List Txn) (i : Nat) (ty cat desc : String) (amt : ℚ) (now : Date)
    (h : i < l.length) :
    (update_at l i ty cat desc amt now).length = l.length
    ∧ (update_at l i ty cat desc amt now)[i]? =
        some { date := some now, ty := Cell.str ty, category := Cell.str cat,
               description := Cell.str desc, amount := some amt }
    ∧ ∀ j, j ≠ i → (update_at l i ty cat desc amt now)[j]? = l[j]? := by
  induction l generalizing i with
  | nil => exact absurd h (by simp)
  | cons t ts ih =>
      cases i with
      | zero =>
          refine ⟨by simp [update_at], by simp [update_at], ?_⟩
          intro j hj
          cases j with
          | zero => exact absurd rfl hj
          | succ k => simp [update_at]
      | succ i0 =>
          have h0 : i0 < ts.length := Nat.lt_of_succ_lt_succ h
          obtain ⟨ihl, ihg, ihf⟩ := ih i0 h0
          refine ⟨by simp [update_at, ihl], by simpa [update_at] using ihg, ?_⟩
          intro j hj
          cases j with
          | zero => simp [update_at]
          | succ k =>
              have hk : k ≠ i0 := fun hkk => hj (by rw [hkk])
              simpa [update_at] using ihf k hk

/-- A concrete two-row store used to instantiate the positional-edit claim. -/
def editStore : List Txn :=
  [{ date := none, ty := Cell.str "Income", category := Cell.str "Other",
     description := Cell.str "a", amount := some 3 },
   { date := none, ty := Cell.str "Expense", category := Cell.str "Food",
     description := Cell.str "b", amount := some 4 }]

/-- The timestamp stamped by the concrete edit below. -/
def editNow : Date := { year := 2025, month := 10, sub := 2 }

theorem update_at_frame_witness :
    1 < editStore.length
    ∧ ((update_at editStore 1 "Income" "Bills" "c" 7 editNow).length = editStore.length
       ∧ (update_at editStore 1 "Income" "Bills" "c" 7 editNow)[1]? =
          some { date := some editNow, ty := Cell.str "Income",
                 category := Cell.str "Bills", description := Cell.str "c", amount := some 7 }
       ∧ ∀ j, j ≠ 1 →
          (update_at editStore 1 "Income" "Bills" "c" 7 editNow)[j]? = editStore[j]?) :=
  ⟨by decide, update_at_frame editStore 1 "Income" "Bills" "c" 7 editNow (by decide)⟩

/-- Whether a stored date falls in the period of `now`: the program compares
`strftime("%B %Y")` labels, and two dates format to the same month-name/year
label exactly when their `(year, month)` pairs agree; NaT formats to NaN and
never matches a concrete label. -/
def sameMonth (now : Date) (d : Option Date) : Bool :=
  match d with
  | none => false
  | some d0 => decide (d0.year = now.year) && decide (d0.month = now.month)

/-- A recurring rule (`src/bt.py` line 144): the dict
`{Type, Category, Amount, Description}` built from the recurring form. -/
structure RecRule where
  ty : String
  category : String
  amount : ℚ
  description : String
deriving DecidableEq, Repr

/-- The existence predicate of `src/bt.py` lines 159-163: a store row matches
a rule when its description and category equal the rule's (a null or
non-string cell never equals a Python string) and its date lies in the
current period. -/
def recMatches (now : Date) (r : RecRule) (t : Txn) : Bool :=
  decide (t.description = Cell.str r.description)
    && decide (t.category = Cell.str r.category)
    && sameMonth now t.date

/-- The row appended at `src/bt.py` lines 167-168: dated now, with the rule's
kind, category, description and amount. -/
def recTxn (now : Date) (r : RecRule) : Txn :=
  { date := some now, ty := Cell.str r.ty, category := Cell.str r.category,
    description := Cell.str r.description, amount := some r.amount }

/-- One iteration of the reconciliation loop (`src/bt.py` lines 157-169): if
no row matches the rule this period, append the rule's row (the empty-store
branch is subsumed: `any` over an empty store is false). -/
def applyRec (now : Date) (l : List Txn) (r : RecRule) : List Txn :=
  if l.any (recMatches now r) then l else l ++ [recTxn now r]

/-- The full reconciliation pass over the rule list, threading the growing
store through the loop. -/
def reconcile (now : Date) (rules : List RecRule) (l : List Txn) : List Txn :=
  rules.foldl (applyRec now) l

theorem recMatches_recTxn (now : Date) (r : RecRule) :
    recMatches now r (recTxn now r) = true := by
  simp [recMatches, recTxn, sameMonth]

theorem applyRec_any_self (now : Date) (l : List Txn) (r : RecRule) :
    (applyRec now l r).any (recMatches now r) = true := by
  unfold applyRec
  by_cases hl : l.any (recMatches now r) = true
  · simp [hl]
  · simp [hl, List.any_append, recMatches_recTxn]

theorem applyRec_any_mono (now : Date) (l : List Txn) (r : RecRule) (p : Txn → Bool)
    (h : l.any p = true) : (applyRec now l r).any p = true := by
  unfold applyRec
  split
  · exact h
  · simp [List.any_append, h]

theorem reconcile_any_preserved (now : Date) (rules : List RecRule) (p : Txn → Bool) :
    ∀ l, l.any p = true → (reconcile now rules l).any p = true := by
  induction rules with
  | nil => exact fun l h => h
  | cons r0 rs ih => exact fun l h => ih _ (applyRec_any_mono now l r0 p h)

theorem reconcile_any (now : Date) (rules : List RecRule) (r : RecRule) (hr : r ∈ rules) :
    ∀ l, (reconcile now rules l).any (recMatches now r) = true := by
  induction rules with
  | nil => cases hr
  | cons r0 rs ih =>
      intro l
      rcases List.mem_cons.mp hr with hq | hmem
      · subst hq
        exact reconcile_any_preserved now rs _ _ (applyRec_any_self now l r)
      · exact ih hmem _

theorem reconcile_fixed (now : Date) (rules : List RecRule) (l : List Txn)
    (h : ∀ r ∈ rules, l.any (recMatches now r) = true) :
    reconcile now rules l = l := by
  induction rules with
  | nil => rfl
  | cons r0 rs ih =>
      have h0 : applyRec now l r0 = l := by
        unfold applyRec
        simp [h r0 (by simp)]
      show reconcile now rs (applyRec now l r0) = l
      rw [h0]
      exact ih (fun r hr => h r (List.mem_cons_of_mem _ hr))

/-- C1: within one period, recurring reconciliation run twice equals it run
once (at most one insertion per rule per period), and a single loop
iteration whose rule has no matching row — same description, same category,
date in the current period — appends exactly one row dated now carrying the
rule's kind, category, amount and description. -/
theorem recurring_reconcile (now : Date) (rules : List RecRule) (l : List Txn) :
    reconcile now rules (reconcile now rules l) = reconcile now rules l
    ∧ ∀ (r : RecRule) (s : List Txn), s.any (recMatches now r) = false →
        applyRec now s r = s ++ [recTxn now r] := by
  constructor
  · exact reconcile_fixed now rules _ (fun r hr => reconcile_any now rules r hr l)
  · intro r s hs
    unfold applyRec
    simp [hs]

/-- The current instant used by the concrete reconciliation run below. -/
def recNow : Date := { year := 2025, month := 10, sub := 12 }

/-- The recurring rule of the spec's scenario: {Expense, Bills, 50, rent}. -/
def rentRule : RecRule :=
  { ty := "Expense", category := "Bills", amount := 50, description := "rent" }

theorem recurring_reconcile_witness :
    (reconcile recNow [rentRule] (reconcile recNow [rentRule] []) =
      reconcile recNow [rentRule] [])
    ∧ (([] : List Txn).any (recMatches recNow rentRule) = false
       ∧ applyRec recNow [] rentRule = [] ++ [recTxn recNow rentRule]) :=
  ⟨(recurring_reconcile recNow [rentRule] []).1,
   by decide,
   (recurring_reconcile recNow [rentRule] []).2 rentRule [] (by decide)⟩

/-- ASCII lowercasing, modelling Python case folding and `re.IGNORECASE`
over the ASCII range. -/
def asciiLower (c : Char) : Char :=
  if 'A' ≤ c && c ≤ 'Z' then Char.ofNat (c.toNat + 32) else c

/-- Models Python regular-expression matching at one position, for the
fragment in which a pattern character is either the wildcard '.' (matching
any single character) or a literal compared case-insensitively.
`Series.str.contains` compiles its pattern as a regex with `re.IGNORECASE`
under `case=False` (library code outside this repository); metacharacters
other than '.' are treated here as literals, so the model is faithful only
for patterns free of them, and every theorem below restricts accordingly. -/
def reMatchAtCI : List Char → List Char → Bool
  | [], _ => true
  | _ :: _, [] => false
  | p :: ps, c :: cs => (p == '.' || asciiLower p == asciiLower c) && reMatchAtCI ps cs

/-- Models `re.search`: try a match at every start position. -/
def reSearchCI (pat : List Char) : List Char → Bool
  | [] => reMatchAtCI pat []
  | c :: cs => reMatchAtCI pat (c :: cs) || reSearchCI pat cs

/-- Elementwise model of `Series.str.contains(pat, case=False, na=False)` on
a string cell. -/
def strContainsCI (pat s : String) : Bool := reSearchCI pat.data s.data

/-- The row predicate of the text filter (`src/bt.py` line 224): the `.str`
accessor yields NaN on null and non-string cells, excluded by `na=False`. -/
def descKeep (pat : String) (t : Txn) : Bool :=
  match t.description with
  | Cell.str s => strContainsCI pat s
  | _ => false

/-- The description filter (`src/bt.py` lines 223-224): `if search_text:` is
Python truthiness, so the empty search string leaves the frame unfiltered. -/
def textFilter (pat : String) (df : List Txn) : List Txn :=
  if pat = "" then df else df.filter (descKeep pat)

/-- Written from the spec's words, for comparison with the code's filter:
case-insensitive prefix test on character lists. -/
def prefixCI : List Char → List Char → Bool
  | [], _ => true
  | _ :: _, [] => false
  | p :: ps, c :: cs => asciiLower p == asciiLower c && prefixCI ps cs

/-- Written from the spec's words: occurrence as a case-insensitive
contiguous substring. -/
def substrCI (pat : List Char) : List Char → Bool
  | [] => prefixCI pat []
  | c :: cs => prefixCI pat (c :: cs) || substrCI pat cs

/-- Written from the spec's words: the search string occurs as a
case-insensitive substring of the description string. -/
def specSubstrCI (pat s : String) : Bool := substrCI pat.data s.data

/-- The metacharacters of Python regular expressions. -/
def regexMeta : List Char :=
  ['.', '^', '$', '*', '+', '?', '\x7b', '\x7d', '[', ']', '(', ')', '|', '\\']

/-- Patterns in which every character is a regex literal. -/
def metaFree (pat : String) : Bool := pat.data.all (fun c => !regexMeta.contains c)

theorem reMatchAtCI_eq_prefixCI (pat : List Char) (hd : ∀ c ∈ pat, c ≠ '.') :
    ∀ s, reMatchAtCI pat s = prefixCI pat s := by
  induction pat with
  | nil => intro s; rfl
  | cons p ps ih =>
      intro s
      cases s with
      | nil => rfl
      | cons c cs =>
          have hp2 : (p == '.') = false := by
            simpa using hd p (by simp)
          simp [reMatchAtCI, prefixCI, hp2,
            ih (fun x hx => hd x (List.mem_cons_of_mem _ hx))]

theorem reSearchCI_eq_substrCI (pat : List Char) (hd : ∀ c ∈ pat, c ≠ '.') :
    ∀ s, reSearchCI pat s = substrCI pat s := by
  intro s
  induction s with
  | nil => simp [reSearchCI, substrCI, reMatchAtCI_eq_prefixCI pat hd]
  | cons c cs ih => simp [reSearchCI, substrCI, reMatchAtCI_eq_prefixCI pat hd, ih]

/-- A transaction whose description is the plain string "ab". -/
def dotTxn : Txn :=
  { date := none, ty := Cell.str "Expense", category := Cell.str "Food",
    description := Cell.str "ab", amount := some 1 }

/-- C6 counterexample: with search string "." the filter keeps the
transaction described "ab" — the pattern is a regular expression whose '.'
matches any character — although "." does not occur as a substring of "ab",
so the keep-iff-substring claim fails as stated. -/
theorem text_filter_counterexample :
    textFilter "." [dotTxn] = [dotTxn]
    ∧ dotTxn.description = Cell.str "ab"
    ∧ specSubstrCI "." "ab" = false := by decide

/-- C6 (amended): for every non-empty search string free of regex
metacharacters, the filter keeps exactly the transactions whose description
is a string containing the search string case-insensitively — in
particular, null and non-string descriptions never match; the empty search
string disables the filter entirely (all rows kept); search strings
containing metacharacters are interpreted as regular expressions rather
than literal substrings. -/
theorem text_filter_amended (pat : String) (store : List Txn)
    (hne : pat ≠ "") (hm : metaFree pat = true) :
    textFilter pat store = store.filter (fun t =>
      match t.description with
      | Cell.str s => specSubstrCI pat s
      | _ => false)
    ∧ ∀ l : List Txn, textFilter "" l = l := by
  have hd : ∀ c ∈ pat.data, c ≠ '.' := by
    intro c hc hceq
    subst hceq
    unfold metaFree at hm
    have := List.all_eq_true.mp hm _ hc
    simp [regexMeta] at this
  constructor
  · unfold textFilter
    rw [if_neg hne]
    apply List.filter_congr
    intro t ht
    unfold descKeep
    cases t.description with
    | str s => exact reSearchCI_eq_substrCI pat.data hd s.data
    | null => rfl
    | num q => rfl
    | date d => rfl
  · intro l
    rfl

/-- A store with one matching, one non-matching and one null-description
row, used to instantiate the amended filter claim. -/
def filterStore : List Txn :=
  [{ date := none, ty := Cell.str "Expense", category := Cell.str "Bills",
     description := Cell.str "Rent payment", amount := some 50 },
   { date := none, ty := Cell.str "Expense", category := Cell.str "Food",
     description := Cell.str "lunch", amount := some 9 },
   { date := none, ty := Cell.str "Expense", category := Cell.str "Food",
     description := Cell.null, amount := some 4 }]

theorem text_filter_amended_witness :
    ("rent" ≠ "" ∧ metaFree "rent" = true)
    ∧ (textFilter "rent" filterStore = filterStore.filter (fun t =>
        match t.description with
        | Cell.str s => specSubstrCI "rent" s
        | _ => false)
       ∧ ∀ l : List Txn, textFilter "" l = l) :=
  ⟨⟨by decide, by decide⟩, text_filter_amended "rent" filterStore (by decide) (by decide)⟩

/-- The current-period slice of the store (`month_df`, `src/bt.py` line 271). -/
def monthDf (now : Date) (l : List Txn) : List Txn :=
  l.filter (fun t => sameMonth now t.date)

/-- The amount a row contributes to a pandas sum: null markers are skipped,
contributing 0. -/
def amtVal (t : Txn) : ℚ := t.amount.getD 0

/-- The spend of one category in the current period (`src/bt.py` lines
286-288): expense rows are grouped by category and summed, then the group
whose key equals the category name is selected and summed again — overall,
the null-skipping sum of expense amounts of that category this month, 0 when
the group is absent. -/
def spentOn (now : Date) (l : List Txn) (cat : String) : ℚ :=
  (((monthDf now l).filter (fun t =>
      decide (t.ty = Cell.str "Expense") && decide (t.category = Cell.str cat))).map amtVal).sum

/-- One iteration of the budget loop (`src/bt.py` lines 287-292): a category
with a truthy limit (not `None` and nonzero) gets `over` when spent strictly
exceeds the limit and `within` otherwise; a category with a falsy limit
emits nothing. -/
def budgetStep (now : Date) (l : List Txn) (p : String × Option ℚ) :
    Option (String × String) :=
  match p.2 with
  | none => none
  | some lim =>
      if lim = 0 then none
      else some (p.1, if lim < spentOn now l p.1 then "over" else "within")

/-- The budget check (`src/bt.py` lines 284-294) as the list of emitted
per-category statuses in budget-map order.  When the current period has no
transactions the `else` branch at line 294 emits nothing at all; otherwise
every budget entry goes through `budgetStep`. -/
def budgetStatus (now : Date) (l : List Txn) (budgets : List (String × Option ℚ)) :
    List (String × String) :=
  if (monthDf now l).isEmpty then []
  else budgets.filterMap (budgetStep now l)

/-- The period of the budget counterexample. -/
def bNow : Date := { year := 2025, month := 10, sub := 15 }

/-- A store whose only expense lies in the previous month, so the current
period is empty. -/
def bStore : List Txn :=
  [{ date := some { year := 2025, month := 9, sub := 1 }, ty := Cell.str "Expense",
     category := Cell.str "Food", description := Cell.str "x", amount := some 30 }]

/-- A budget map configuring a positive limit for Food. -/
def bBudgets : List (String × Option ℚ) := [("Food", some 20)]

/-- C5 counterexample: Food has configured positive limit 20 and spent
0 ≤ 20 this period, so the claim requires status `within`; but the current
period holds no transactions, and the code's empty-month branch emits no
status at all. -/
theorem budget_status_counterexample :
    (0 : ℚ) < 20
    ∧ ("Food", some (20 : ℚ)) ∈ bBudgets
    ∧ spentOn bNow bStore "Food" ≤ 20
    ∧ budgetStatus bNow bStore bBudgets = []
    ∧ ("Food", "within") ∉ budgetStatus bNow bStore bBudgets := by decide

theorem keyed_eq_of_nodup {α β : Type} (l : List (α × β))
    (hnd : (l.map Prod.fst).Nodup) (a b : α × β)
    (ha : a ∈ l) (hb : b ∈ l) (h1 : a.1 = b.1) : a = b := by
  induction l with
  | nil => cases ha
  | cons x xs ih =>
      have hx : x.1 ∉ xs.map Prod.fst := (List.nodup_cons.mp hnd).1
      have hxs : (xs.map Prod.fst).Nodup := (List.nodup_cons.mp hnd).2
      rcases List.mem_cons.mp ha with rfl | ha2
      · rcases List.mem_cons.mp hb with rfl | hb2
        · rfl
        · exact absurd (h1 ▸ List.mem_map_of_mem Prod.fst hb2) hx
      · rcases List.mem_cons.mp hb with rfl | hb2
        · exact absurd (h1 ▸ List.mem_map_of_mem Prod.fst ha2) hx
        · exact ih hxs ha2 hb2

theorem budgetStep_eval (now : Date) (l : List Txn) (c : String) (lim : ℚ) :
    budgetStep now l (c, some lim) =
      if lim = 0 then none
      else some (c, if lim < spentOn now l c then "over" else "within") := rfl

theorem budgetStep_some_inv (now : Date) (l : List Txn) (c2 : String) (o : Option ℚ)
    (cat st : String) (h : budgetStep now l (c2, o) = some (cat, st)) :
    c2 = cat ∧ ∃ lim2, o = some lim2 ∧ lim2 ≠ 0 ∧
      st = (if lim2 < spentOn now l c2 then "over" else "within") := by
  cases o with
  | none => exact absurd h (by simp [budgetStep])
  | some lim2 =>
      rw [budgetStep_eval] at h
      by_cases h20 : lim2 = 0
      · rw [if_pos h20] at h
        exact absurd h (by simp)
      · rw [if_neg h20] at h
        have hpair := Option.some.inj h
        exact ⟨((Prod.mk.injEq _ _ _ _).mp hpair).1, lim2, rfl, h20,
          (((Prod.mk.injEq _ _ _ _).mp hpair).2).symm⟩

/-- C5 (amended): when the current period contains at least one transaction,
a category with a configured positive limit gets status `over` exactly when
its spend strictly exceeds the limit, and status `within` exactly when the
spend is at most the limit (equality included), while a category with no
configured limit (or a zero limit) produces no status at all; when the
current period has no transactions, no statuses are produced for any
category. -/
theorem budget_status_amended (now : Date) (l : List Txn)
    (budgets : List (String × Option ℚ))
    (hne : (monthDf now l).isEmpty = false)
    (hnd : (budgets.map Prod.fst).Nodup) :
    (∀ cat lim, (cat, some lim) ∈ budgets → 0 < lim →
        (((cat, "over") ∈ budgetStatus now l budgets ↔ lim < spentOn now l cat)
         ∧ ((cat, "within") ∈ budgetStatus now l budgets ↔ spentOn now l cat ≤ lim)))
    ∧ (∀ cat o, (cat, o) ∈ budgets → (o = none ∨ o = some 0) →
        ∀ st, (cat, st) ∉ budgetStatus now l budgets)
    ∧ (∀ now2 l2, (monthDf now2 l2).isEmpty = true →
        budgetStatus now2 l2 budgets = []) := by
  have hbs : budgetStatus now l budgets = budgets.filterMap (budgetStep now l) := by
    unfold budgetStatus
    rw [hne]
    simp
  refine ⟨?_, ?_, ?_⟩
  · intro cat lim hmem hpos
    have hlim0 : ¬ lim = 0 := ne_of_gt hpos
    have hfwd : ∀ st, (cat, st) ∈ budgetStatus now l budgets →
        st = (if lim < spentOn now l cat then "over" else "within") := by
      intro st hin
      rw [hbs] at hin
      rcases List.mem_filterMap.mp hin with ⟨p, hp, hgp⟩
      obtain ⟨c2, o2⟩ := p
      obtain ⟨hc2, lim2, ho2, h20, hst⟩ := budgetStep_some_inv now l c2 o2 cat st hgp
      subst hc2
      subst ho2
      have hpeq : ((c2, some lim2) : String × Option ℚ) = (c2, some lim) :=
        keyed_eq_of_nodup budgets hnd _ _ hp hmem rfl
      have hl2 : lim2 = lim := Option.some.inj ((Prod.mk.injEq _ _ _ _).mp hpeq).2
      rw [hl2] at hst
      exact hst
    have hbwd : ((cat, if lim < spentOn now l cat then "over" else "within") ∈
        budgetStatus now l budgets) := by
      rw [hbs]
      refine List.mem_filterMap.mpr ⟨(cat, some lim), hmem, ?_⟩
      rw [budgetStep_eval, if_neg hlim0]
    constructor
    · constructor
      · intro hin
        have := hfwd _ hin
        by_cases hlt : lim < spentOn now l cat
        · exact hlt
        · rw [if_neg hlt] at this
          exact absurd this (by decide)
      · intro hlt
        have := hbwd
        rw [if_pos hlt] at this
        exact this
    · constructor
      · intro hin
        have := hfwd _ hin
        by_cases hlt : lim < spentOn now l cat
        · rw [if_pos hlt] at this
          exact absurd this (by decide)
        · exact le_of_not_lt hlt
      · intro hle
        have := hbwd
        rw [if_neg (not_lt.mpr hle)] at this
        exact this
  · intro cat o hmem ho st hin
    rw [hbs] at hin
    rcases List.mem_filterMap.mp hin with ⟨p, hp, hgp⟩
    obtain ⟨c2, o2⟩ := p
    obtain ⟨hc2, lim2, ho2, h20, hst⟩ := budgetStep_some_inv now l c2 o2 cat st hgp
    subst hc2
    subst ho2
    have hpeq : ((c2, some lim2) : String × Option ℚ) = (c2, o) :=
      keyed_eq_of_nodup budgets hnd _ _ hp hmem rfl
    have ho2 : o = some lim2 := (((Prod.mk.injEq _ _ _ _).mp hpeq).2).symm
    rcases ho with h | h
    · rw [h] at ho2
      exact Option.noConfusion ho2
    · rw [h] at ho2
      exact h20 (Option.some.inj ho2).symm
  · intro now2 l2 hemp
    unfold budgetStatus
    rw [hemp]
    simp

/-- The period of the concrete budget-check run: October 2025. -/
def wNow : Date := { year := 2025, month := 10, sub := 3 }

/-- A store with one current-month Food expense of 30. -/
def wStore : List Txn :=
  [{ date := some { year := 2025, month := 10, sub := 2 }, ty := Cell.str "Expense",
     category := Cell.str "Food", description := Cell.str "lunch", amount := some 30 }]

/-- A budget map with a positive Food limit and no Transport limit. -/
def wBudgets : List (String × Option ℚ) := [("Food", some 20), ("Transport", none)]

theorem budget_status_amended_witness :
    ((monthDf wNow wStore).isEmpty = false ∧ (wBudgets.map Prod.fst).Nodup)
    ∧ ((∀ cat lim, (cat, some lim) ∈ wBudgets → 0 < lim →
          (((cat, "over") ∈ budgetStatus wNow wStore wBudgets ↔
              lim < spentOn wNow wStore cat)
           ∧ ((cat, "within") ∈ budgetStatus wNow wStore wBudgets ↔
              spentOn wNow wStore cat ≤ lim)))
       ∧ (∀ cat o, (cat, o) ∈ wBudgets → (o = none ∨ o = some 0) →
          ∀ st, (cat, st) ∉ budgetStatus wNow wStore wBudgets)
       ∧ (∀ now2 l2, (monthDf now2 l2).isEmpty = true →
          budgetStatus now2 l2 wBudgets = [])) :=
  ⟨⟨by decide, by decide⟩, budget_status_amended wNow wStore wBudgets (by decide) (by decide)⟩

/-- The NaT-last date comparison realised by `sort_values("Date")`
(`na_position` defaults to `"last"`). -/
def odateLeB : Option Date → Option Date → Bool
  | _, none => true
  | none, some _ => false
  | some a, some b =>
      decide (a.year < b.year)
      || (decide (a.year = b.year)
          && (decide (a.month < b.month)
              || (decide (a.month = b.month) && decide (a.sub ≤ b.sub))))

/-- Insertion step of the date sort. -/
def insertDate (t : Txn) : List Txn → List Txn
  | [] => [t]
  | u :: us => if odateLeB u.date t.date then u :: insertDate t us else t :: u :: us

/-- Model of `sort_values("Date")` (`src/bt.py` line 325) as an insertion
sort by the NaT-last date order.  pandas' default sort kind guarantees no
particular tie order, so only tie-order-independent consequences are drawn
from this model. -/
def sortByDate (l : List Txn) : List Txn := l.foldr insertDate []

/-- Signed delta of a row (`src/bt.py` line 327): `+amount` for Income,
`-amount` otherwise; a null amount stays null. -/
def delta (t : Txn) : Option ℚ :=
  t.amount.map (fun a => if t.ty = Cell.str "Income" then a else -a)

/-- Model of `Series.cumsum()` under its default NaN skipping: a null entry
stays null in place and does not advance the accumulator. -/
def cumsumFrom (acc : ℚ) : List (Option ℚ) → List (Option ℚ)
  | [] => []
  | none :: xs => none :: cumsumFrom acc xs
  | some q :: xs => some (acc + q) :: cumsumFrom (acc + q) xs

/-- The `Balance` column of `src/bt.py` line 328: cumulative sum of the
signed deltas in date order. -/
def balanceSeries (l : List Txn) : List (Option ℚ) :=
  cumsumFrom 0 ((sortByDate l).map delta)

/-- Total of the Income-kind amounts over the full store (the program's
income aggregation, `src/bt.py` line 274, taken over the whole store;
pandas sums skip null amounts). -/
def totalIncome (l : List Txn) : ℚ :=
  ((l.filter (fun t => decide (t.ty = Cell.str "Income"))).map amtVal).sum

/-- Total of the Expense-kind amounts over the full store (`src/bt.py`
line 275 taken over the whole store). -/
def totalExpenses (l : List Txn) : ℚ :=
  ((l.filter (fun t => decide (t.ty = Cell.str "Expense"))).map amtVal).sum

theorem insertDate_map_sum (f : Txn → ℚ) (t : Txn) (l : List Txn) :
    ((insertDate t l).map f).sum = f t + (l.map f).sum := by
  induction l with
  | nil => simp [insertDate]
  | cons u us ih =>
      by_cases h : odateLeB u.date t.date = true
      · simp only [insertDate, if_pos h, List.map_cons, List.sum_cons, ih]
        ring
      · simp only [insertDate, if_neg h, List.map_cons, List.sum_cons]

theorem sortByDate_map_sum (f : Txn → ℚ) (l : List Txn) :
    ((sortByDate l).map f).sum = (l.map f).sum := by
  induction l with
  | nil => rfl
  | cons t ts ih =>
      show ((insertDate t (sortByDate ts)).map f).sum = ((t :: ts).map f).sum
      rw [insertDate_map_sum, ih, List.map_cons, List.sum_cons]

theorem mem_insertDate (u t : Txn) (l : List Txn) :
    u ∈ insertDate t l ↔ u = t ∨ u ∈ l := by
  induction l with
  | nil => simp [insertDate]
  | cons v vs ih =>
      by_cases h : odateLeB v.date t.date = true
      · simp only [insertDate, if_pos h, List.mem_cons, ih]
        tauto
      · simp only [insertDate, if_neg h, List.mem_cons]

theorem mem_sortByDate (u : Txn) (l : List Txn) : u ∈ sortByDate l ↔ u ∈ l := by
  induction l with
  | nil => simp [sortByDate]
  | cons t ts ih =>
      show u ∈ insertDate t (sortByDate ts) ↔ u ∈ t :: ts
      rw [mem_insertDate, ih, List.mem_cons]

theorem length_insertDate (t : Txn) (l : List Txn) :
    (insertDate t l).length = l.length + 1 := by
  induction l with
  | nil => rfl
  | cons v vs ih =>
      by_cases h : odateLeB v.date t.date = true
      · simp [insertDate, if_pos h, ih]
      · simp [insertDate, if_neg h]

theorem length_sortByDate (l : List Txn) : (sortByDate l).length = l.length := by
  induction l with
  | nil => rfl
  | cons t ts ih =>
      show (insertDate t (sortByDate ts)).length = ts.length + 1
      rw [length_insertDate, ih]

theorem cumsumFrom_ne_nil (acc : ℚ) (m : List (Option ℚ)) (hm : m ≠ []) :
    cumsumFrom acc m ≠ [] := by
  cases m with
  | nil => exact absurd rfl hm
  | cons x xs =>
      cases x with
      | none => simp [cumsumFrom]
      | some q => simp [cumsumFrom]

theorem getLast?_cons_of_ne_nil {α : Type} (a : α) (l : List α) (h : l ≠ []) :
    (a :: l).getLast? = l.getLast? := by
  cases l with
  | nil => exact absurd rfl h
  | cons b bs => exact List.getLast?_cons_cons

theorem cumsumFrom_getLast (m : List (Option ℚ)) (hm : ∀ x ∈ m, x.isSome = true) :
    ∀ acc, m ≠ [] →
      (cumsumFrom acc m).getLast? =
        some (some (acc + (m.map (fun x => x.getD 0)).sum)) := by
  induction m with
  | nil => exact fun acc h => absurd rfl h
  | cons x xs ih =>
      intro acc hne
      cases x with
      | none => exact absurd (hm none (by simp)) (by simp)
      | some q =>
          by_cases hxs : xs = []
          · subst hxs
            simp [cumsumFrom]
          · have hxs2 : ∀ z ∈ xs, z.isSome = true :=
              fun z hz => hm z (List.mem_cons_of_mem _ hz)
            have hrec := ih hxs2 (acc + q) hxs
            show (some (acc + q) :: cumsumFrom (acc + q) xs).getLast? = _
            rw [getLast?_cons_of_ne_nil _ _ (cumsumFrom_ne_nil (acc + q) xs hxs), hrec]
            rw [List.map_cons, List.sum_cons]
            congr 2
            simp only [Option.getD_some]
            ring

theorem sum_signed (l : List Txn)
    (hty : ∀ t ∈ l, t.ty = Cell.str "Income" ∨ t.ty = Cell.str "Expense") :
    (l.map (fun t => if t.ty = Cell.str "Income" then amtVal t else -(amtVal t))).sum
      = totalIncome l - totalExpenses l := by
  induction l with
  | nil => simp [totalIncome, totalExpenses]
  | cons t ts ih =>
      have hts : ∀ u ∈ ts, u.ty = Cell.str "Income" ∨ u.ty = Cell.str "Expense" :=
        fun u hu => hty u (List.mem_cons_of_mem _ hu)
      rw [List.map_cons, List.sum_cons, ih hts]
      unfold totalIncome totalExpenses
      rw [List.filter_cons, List.filter_cons]
      rcases hty t (by simp) with h | h
      · have h1 : decide (t.ty = Cell.str "Income") = true := by simp [h]
        have h2 : decide (t.ty = Cell.str "Expense") = false := by simp [h]
        rw [if_pos h]
        simp only [h1, h2, if_true, if_false, Bool.false_eq_true, List.map_cons, List.sum_cons]
        ring
      · have hne : ¬ t.ty = Cell.str "Income" := by
          rw [h]
          simp
        have h1 : decide (t.ty = Cell.str "Income") = false := by simp [hne]
        have h2 : decide (t.ty = Cell.str "Expense") = true := by simp [h]
        rw [if_neg hne]
        simp only [h1, h2, if_true, if_false, Bool.false_eq_true, List.map_cons, List.sum_cons]
        ring

/-- C7 (amended): for every nonempty store in which every amount is non-null
and every kind is the string Income or the string Expense, the last element
of the cumulative balance series equals total income minus total expenses
over the full unfiltered store. -/
theorem balance_last_amended (l : List Txn) (hne : l ≠ [])
    (hamt : ∀ t ∈ l, t.amount.isSome = true)
    (hty : ∀ t ∈ l, t.ty = Cell.str "Income" ∨ t.ty = Cell.str "Expense") :
    (balanceSeries l).getLast? = some (some (totalIncome l - totalExpenses l)) := by
  unfold balanceSeries
  have hm : ∀ x ∈ (sortByDate l).map delta, x.isSome = true := by
    intro x hx
    rcases List.mem_map.mp hx with ⟨t, ht, rfl⟩
    have hs := hamt t ((mem_sortByDate t l).mp ht)
    rcases Option.isSome_iff_exists.mp hs with ⟨a, ha⟩
    simp [delta, ha]
  have hmne : (sortByDate l).map delta ≠ [] := by
    intro h0
    have hsn : sortByDate l = [] := List.map_eq_nil_iff.mp h0
    have hlen := congrArg List.length hsn
    rw [length_sortByDate] at hlen
    exact hne (List.length_eq_zero.mp hlen)
  rw [cumsumFrom_getLast _ hm 0 hmne, zero_add]
  have hstep : (((sortByDate l).map delta).map (fun x => x.getD 0))
      = (sortByDate l).map (fun t =>
          if t.ty = Cell.str "Income" then amtVal t else -(amtVal t)) := by
    rw [List.map_map]
    apply List.map_congr_left
    intro t ht
    have hs := hamt t ((mem_sortByDate t l).mp ht)
    rcases Option.isSome_iff_exists.mp hs with ⟨a, ha⟩
    simp [Function.comp, delta, ha, amtVal]
  rw [hstep, sortByDate_map_sum]
  have hty2 : ∀ t ∈ l, t.ty = Cell.str "Income" ∨ t.ty = Cell.str "Expense" := hty
  rw [sum_signed l hty2]

/-- A store containing a row of kind "Foo" (reachable only by import) and an
Income row with a null amount: the balance series ends in null while the
income and expense totals are both zero. -/
def balStore : List Txn :=
  [{ date := some { year := 2025, month := 1, sub := 1 }, ty := Cell.str "Foo",
     category := Cell.str "Other", description := Cell.str "x", amount := some 5 },
   { date := some { year := 2025, month := 1, sub := 2 }, ty := Cell.str "Income",
     category := Cell.str "Other", description := Cell.str "y", amount := none }]

/-- C7 counterexample: on `balStore` the cumulative series is
[-5, null] — the "Foo" row is signed negative but counted by neither total,
and the null amount propagates to the last entry — while total income minus
total expenses is 0, so the claim fails as stated on this store. -/
theorem balance_last_counterexample :
    balanceSeries balStore = [some (-5), none]
    ∧ totalIncome balStore - totalExpenses balStore = 0
    ∧ (balanceSeries balStore).getLast? ≠
        some (some (totalIncome balStore - totalExpenses balStore)) := by
  have hFI : ¬ ("Foo" : String) = "Income" := by decide
  have hFE : ¬ ("Foo" : String) = "Expense" := by decide
  have hIE : ¬ ("Income" : String) = "Expense" := by decide
  refine ⟨?_, ?_, ?_⟩
  · norm_num [balanceSeries, balStore, sortByDate, insertDate, odateLeB, delta, cumsumFrom]
    decide
  · norm_num [totalIncome, totalExpenses, balStore, amtVal, List.filter_cons, List.filter_nil,
      hFI, hFE, hIE]
  · norm_num [balanceSeries, balStore, sortByDate, insertDate, odateLeB, delta, cumsumFrom,
      totalIncome, totalExpenses, amtVal, List.filter_cons, List.filter_nil, hFI, hFE, hIE]
    exact fun h => Option.noConfusion h

/-- The spec's scenario store: Income 100 on Jan 1, Expense 30 on Jan 2. -/
def scenarioStore : List Txn :=
  [{ date := some { year := 2025, month := 1, sub := 1 }, ty := Cell.str "Income",
     category := Cell.str "Other", description := Cell.str "", amount := some 100 },
   { date := some { year := 2025, month := 1, sub := 2 }, ty := Cell.str "Expense",
     category := Cell.str "Food", description := Cell.str "lunch", amount := some 30 }]

theorem balance_last_amended_witness :
    (scenarioStore ≠ []
     ∧ (∀ t ∈ scenarioStore, t.amount.isSome = true)
     ∧ (∀ t ∈ scenarioStore, t.ty = Cell.str "Income" ∨ t.ty = Cell.str "Expense"))
    ∧ (balanceSeries scenarioStore).getLast? =
        some (some (totalIncome scenarioStore - totalExpenses scenarioStore)) :=
  ⟨⟨by decide, by decide, by decide⟩,
   balance_last_amended scenarioStore (by decide) (by decide) (by decide)⟩

/-- Outcome of parsing the uploaded byte stream (`pd.read_csv` /
`pd.read_excel`, library code outside this repository, selected by the file
name suffix): either a raw dataframe, or a raised parse error carrying its
message. -/
inductive UploadResult where
  | parsed : RawFrame → UploadResult
  | parseError : String → UploadResult
deriving DecidableEq, Repr

/-- Whether the parse raised. -/
def isParseError : UploadResult → Bool
  | UploadResult.parsed _ => false
  | UploadResult.parseError _ => true

/-- Date projection of a schema-enforced cell. -/
def cellDate : Cell → Option Date
  | Cell.date d => some d
  | _ => none

/-- Numeric projection of a schema-enforced cell. -/
def cellNum : Cell → Option ℚ
  | Cell.num q => some q
  | _ => none

/-- Row `i` of a five-column frame, as a stored transaction. -/
def rowAt (f : RawFrame) (i : Nat) : Txn :=
  { date := cellDate ((getColD f.cols "Date").getD i Cell.null),
    ty := (getColD f.cols "Type").getD i Cell.null,
    category := (getColD f.cols "Category").getD i Cell.null,
    description := (getColD f.cols "Description").getD i Cell.null,
    amount := cellNum ((getColD f.cols "Amount").getD i Cell.null) }

/-- All rows of a five-column frame, in order. -/
def tableRows (f : RawFrame) : List Txn := (List.range f.nrows).map (rowAt f)

/-- Result of the import block: the transaction store afterwards, the banner
text, and whether the error banner was shown. -/
structure ImportOutcome where
  transactions : List Txn
  message : String
  failed : Bool
deriving DecidableEq, Repr

/-- The import block (`src/bt.py` lines 205-216): on a successful parse the
whole table is schema-enforced and then appended en bloc by
`pd.concat(..., ignore_index=True)` after the existing rows; any raised
parse failure is caught by the `except` clause, surfaced as an error banner,
and the store assignment never runs. -/
def importUpload (store : List Txn) (u : UploadResult) : ImportOutcome :=
  match u with
  | UploadResult.parsed raw =>
      { transactions := store ++ tableRows (ensure_schema (some raw)),
        message := "Data Imported!", failed := false }
  | UploadResult.parseError e =>
      { transactions := store, message := "Import failed: " ++ e, failed := true }

/-- C4: import is atomic on failure — whenever parsing the uploaded byte
stream fails, the failure is caught (the import block is a total function of
the parse outcome), the user-visible error banner carries the exception
message, and the store is exactly unchanged; and on the success path the
whole schema-enforced table is appended in one step after the existing rows,
never row-by-row interleaved with enforcement. -/
theorem import_atomic_on_failure (store : List Txn) (u : UploadResult)
    (h : isParseError u = true) :
    (importUpload store u).transactions = store
    ∧ (importUpload store u).failed = true
    ∧ (∀ e, (importUpload store (UploadResult.parseError e)).message = "Import failed: " ++ e)
    ∧ (∀ raw : RawFrame, (importUpload store (UploadResult.parsed raw)).transactions
        = store ++ tableRows (ensure_schema (some raw))) := by
  cases u with
  | parsed raw => exact absurd h (by simp [isParseError])
  | parseError e => exact ⟨rfl, rfl, fun e2 => rfl, fun raw => rfl⟩

theorem import_atomic_on_failure_witness :
    isParseError (UploadResult.parseError "bad header") = true
    ∧ ((importUpload scenarioStore (UploadResult.parseError "bad header")).transactions =
        scenarioStore
       ∧ (importUpload scenarioStore (UploadResult.parseError "bad header")).failed = true
       ∧ (∀ e, (importUpload scenarioStore (UploadResult.parseError e)).message =
          "Import failed: " ++ e)
       ∧ (∀ raw : RawFrame,
          (importUpload scenarioStore (UploadResult.parsed raw)).transactions =
            scenarioStore ++ tableRows (ensure_schema (some raw)))) :=
  ⟨by decide,
   import_atomic_on_failure scenarioStore (UploadResult.parseError "bad header") (by decide)⟩
